import Mathlib

/-!
# Verification of the energy consumption reconstruction and reconciliation engine

This file gives a shallow embedding, in Lean 4, of the core data pipeline of
the `ha_energy_analyzer` repository and proves (or refutes) the stated
properties of its specification.

Conventions of the embedding:
* Timestamps (`pandas` datetimes in the source) are modelled as `ℤ`, counting
  seconds of local wall-clock time since the epoch; truncating a datetime to
  the hour (`replace(minute=0, second=0, microsecond=0)`) becomes flooring to
  a multiple of 3600, and `pd.Timestamp.timestamp()` is the identity.
* Float values (`float64` in the source) are modelled as exact rationals `ℚ`.
* DataFrames are modelled as lists of records, in row order.  `pandas`
  `sort_values` is modelled as a stable insertion sort (row order among rows
  whose sort keys tie completely is unobservable in the persisted data, which
  has at most one record per `(entity_id, datetime)`).
* External collaborators (the `holidays` library, the HTTP/database pullers)
  are parameters of the definitions that consume them.
-/

namespace HAEnergy

/-! ## Generic stable insertion sort (model of `pandas.sort_values`) -/

/-- Insert `a` into `l`, in front of the first element `b` with `le a b`.
When `le` is a total preorder and `l` is sorted, this is a stable insertion. -/
def insertLe {α : Type} (le : α → α → Bool) (a : α) : List α → List α
  | [] => [a]
  | b :: l => if le a b then a :: b :: l else b :: insertLe le a l

/-- Stable insertion sort by the boolean comparison `le`. -/
def sortLe {α : Type} (le : α → α → Bool) : List α → List α
  | [] => []
  | a :: l => insertLe le a (sortLe le l)

/-! ## Data model: observations and hourly records

An `Obs` is one normalized sample (a row of the raw history DataFrame after
`load_data`): one entity, one timestamp (`last_changed`, seconds), one numeric
cumulative value (`state_numeric`). -/

structure Obs where
  entity_id : String
  t : ℤ
  v : ℚ
deriving DecidableEq, Repr

/-- A record of the per-sensor hourly consumption DataFrame produced by
`EnergyDataAnalyzer.calculate_hourly_consumption` (data_analysis.py). -/
structure HRecord where
  datetime : ℤ
  entity_id : String
  sensor_name : String
  cumulative_consumption : ℚ
  hourly_consumption : ℚ
  data_method : String
deriving DecidableEq, Repr

/-! ## The hourly reconstructor (data_analysis.py) -/

/-- The observations of `df_sensor` strictly before `target`
(data_analysis.py line 154). -/
def beforeObs (df_sensor : List Obs) (target : ℤ) : List Obs :=
  df_sensor.filter (fun o => o.t < target)

/-- The observations of `df_sensor` strictly after `target`
(data_analysis.py line 155). -/
def afterObs (df_sensor : List Obs) (target : ℤ) : List Obs :=
  df_sensor.filter (fun o => target < o.t)

/-- `EnergyDataAnalyzer.interpolate_hourly_value` (data_analysis.py lines
137-189): the hour-aligned cumulative value at `target`.
* exact match (line 149-151): the first observation at exactly `target`;
* otherwise the latest observation before (`before.iloc[-1]`) and the earliest
  after (`after.iloc[0]`); `None` if either side is empty (lines 157-158);
* reset check (line 169): if `after.v - before.v < -0.1`, return the before
  value (line 173);
* zero time difference guard (lines 182-183), else linear interpolation
  (line 187). -/
def interpolate_hourly_value (df_sensor : List Obs) (target : ℤ) : Option ℚ :=
  match df_sensor.find? (fun o => o.t == target) with
  | some o => some o.v
  | none =>
    match (beforeObs df_sensor target).getLast?, (afterObs df_sensor target).head? with
    | some before_record, some after_record =>
      let value_diff := after_record.v - before_record.v
      if value_diff < -(1/10 : ℚ) then
        some before_record.v
      else
        let time_diff : ℤ := after_record.t - before_record.t
        if time_diff = 0 then
          some before_record.v
        else
          some (before_record.v + value_diff * ((target - before_record.t : ℤ) : ℚ) / ((time_diff : ℤ) : ℚ))
    | _, _ => none

/-- Truncation of a timestamp to the hour
(`replace(minute=0, second=0, microsecond=0)`). -/
def truncHour (t : ℤ) : ℤ := (t / 3600) * 3600

/-- `min` over the timestamps of a nonempty observation list
(`sensor_data['last_changed'].min()`). -/
def obsMin (o0 : Obs) (rest : List Obs) : ℤ :=
  (rest.map Obs.t).foldl min o0.t

/-- `max` over the timestamps of a nonempty observation list
(`sensor_data['last_changed'].max()`). -/
def obsMax (o0 : Obs) (rest : List Obs) : ℤ :=
  (rest.map Obs.t).foldl max o0.t

/-- The end bound of the hour grid (data_analysis.py lines 222-228): round the
last observation time up past the next hour boundary — two extra hours when it
carries minutes/seconds/microseconds, one when it is exactly on the hour. -/
def endHourOf (max_time : ℤ) : ℤ :=
  if max_time % 3600 ≠ 0 then truncHour max_time + 7200
  else truncHour max_time + 3600

/-- `pd.date_range(start, end, freq='h')` for hour-aligned bounds:
`start, start + 3600, …` up to (and including) `end`. -/
def hourRange (start endH : ℤ) : List ℤ :=
  (List.range (((endH - start) / 3600).toNat + 1)).map (fun i : ℕ => start + 3600 * (i : ℤ))

/-- The hour grid generated for a (sorted) observation list
(data_analysis.py lines 219-230). -/
def calcHourGrid (sensor_data : List Obs) : List ℤ :=
  match sensor_data with
  | [] => []
  | o0 :: rest => hourRange (truncHour (obsMin o0 rest)) (endHourOf (obsMax o0 rest))

/-- Python's two-argument `max` on floats, as used by the reconstructor
(`max(0, …)` at data_analysis.py lines 264 and 268). -/
def pymax (a b : ℚ) : ℚ := if a ≤ b then b else a

/-- Sensor display name resolution (data_analysis.py line 271):
`self.sensor_names.get(sensor_id, sensor_id.replace('sensor.', '').replace('_', ' '))`. -/
def displayName (sensor_names : List (String × String)) (sensor_id : String) : String :=
  match sensor_names.lookup sensor_id with
  | some n => n
  | none => (sensor_id.replace "sensor." "").replace "_" " "

/-- Method classification for an hour (data_analysis.py lines 243-250):
`exact` when an observation sits exactly on the hour, else `interpolated`. -/
def recordMethod (sensor_data : List Obs) (hour : ℤ) : String :=
  if sensor_data.any (fun o => o.t == hour) then "exact" else "interpolated"

/-- Loop body of `calculate_hourly_consumption` (data_analysis.py lines
238-280): reconstruct the cumulative value at `hour` (skip the hour when
`None`), classify the method as exact/interpolated (lines 243-250), convert to
an hourly delta against the previous emitted record (lines 252-268: first hour
gets 0; a delta below `-0.1` is a counter reset whose consumption is
`max 0 cumulative` and whose method gains `_reset_detected`; otherwise the
delta is clamped by `max 0`), and append the record. -/
def hourStep (sensor_names : List (String × String)) (sensor_id : String)
    (sensor_data : List Obs) (acc : List HRecord) (hour : ℤ) : List HRecord :=
  match interpolate_hourly_value sensor_data hour with
  | none => acc
  | some cumulative_value =>
    let method := recordMethod sensor_data hour
    let vm : ℚ × String :=
      match acc.getLast? with
      | none => (0, method)
      | some prev =>
        let raw_consumption := cumulative_value - prev.cumulative_consumption
        if raw_consumption < -(1/10 : ℚ) then
          (pymax 0 cumulative_value, method ++ "_reset_detected")
        else
          (pymax 0 raw_consumption, method)
    acc ++ [{ datetime := hour
              entity_id := sensor_id
              sensor_name := displayName sensor_names sensor_id
              cumulative_consumption := cumulative_value
              hourly_consumption := vm.1
              data_method := vm.2 }]

/-- The per-sensor observation table (data_analysis.py lines 209-210): the
loaded data filtered to one sensor and sorted by `last_changed`. -/
def sensorData (sensor_id : String) (data : List Obs) : List Obs :=
  sortLe (fun a b => decide (a.t ≤ b.t)) (data.filter (fun o => o.entity_id == sensor_id))

/-- `EnergyDataAnalyzer.calculate_hourly_consumption` (data_analysis.py lines
191-284) for one sensor: filter the loaded data to the sensor, sort by
timestamp, build the hour grid, and emit one record per reconstructible hour. -/
def calculate_hourly_consumption (sensor_names : List (String × String))
    (sensor_id : String) (data : List Obs) : List HRecord :=
  let sensor_data := sensorData sensor_id data
  (calcHourGrid sensor_data).foldl (hourStep sensor_names sensor_id sensor_data) []

/-! ## Invariants of the reconstructor -/

/-- The invariant maintained for every record emitted by the reconstruction
loop: its cumulative value is the reconstructed value of its hour, its method
is the exact/interpolated classification of its hour (possibly with the
`_reset_detected` suffix), and its hourly consumption is nonnegative. -/
def RecOk (sensor_data : List Obs) (r : HRecord) : Prop :=
  interpolate_hourly_value sensor_data r.datetime = some r.cumulative_consumption ∧
  (r.data_method = recordMethod sensor_data r.datetime ∨
    r.data_method = recordMethod sensor_data r.datetime ++ "_reset_detected") ∧
  0 ≤ r.hourly_consumption

/-- The cumulative sequence `[10.0, 10.5, 0.2, 0.9]` at four consecutive
hours, for one entity (the concrete reset-containment scenario of §8 of the
specification). -/
def c4data : List Obs :=
  [⟨"s", 0, 10⟩, ⟨"s", 3600, 21/2⟩, ⟨"s", 7200, 1/5⟩, ⟨"s", 10800, 9/10⟩]

/-! ## Reconciler data model (main.py)

A `Row` is one row of the combined hourly DataFrame handled by
`HAHistoryMain`: the per-source hourly tables tagged with `data_source`
(`'Home Assistant'` / `'Emporia'`, main.py lines 1725-1727), their
concatenation, and the rows of the persisted `energy_analysis.csv`. -/

structure Row where
  datetime : ℤ
  entity_id : String
  sensor_name : String
  cumulative_consumption : ℚ
  hourly_consumption : ℚ
  data_method : String
  data_source : String
deriving DecidableEq, Repr

/-- One entry of the sensor mapping loaded by `HAHistoryMain.load_sensor_names`
(main.py lines 137-166): `entity_id`, display `name` and the raw
`upstream_sensor` cell (the string `'none'` when there is no upstream). -/
structure Mapping where
  entity_id : String
  name : String
  upstream_sensor : String
deriving DecidableEq, Repr

/-- The guard of main.py line 1203:
`if not upstream_device or upstream_device.lower() == 'none': continue`. -/
def hasUpstream (m : Mapping) : Bool :=
  !(m.upstream_sensor == "") && !(m.upstream_sensor.toLower == "none")

/-- Replace the first row satisfying `p` by its image under `f` (the in-place
`adjusted_df.loc[upstream_index, …]` updates of main.py lines 1227-1238,
`upstream_index` being the index of the first matching row); identity when no
row matches (the `continue` of line 1223-1224). -/
def adjustFirst (p : Row → Bool) (f : Row → Row) : List Row → List Row
  | [] => []
  | r :: rs => if p r then f r :: rs else r :: adjustFirst p f rs

/-- The field updates applied to an upstream row (main.py lines 1227-1238):
hourly consumption and cumulative consumption are both reduced by the
downstream HA device's hourly consumption (`ha_consumption`), and the data
method is tagged `_adjusted`. -/
def adjustRow (ha_consumption : ℚ) (r : Row) : Row :=
  { r with hourly_consumption := r.hourly_consumption - ha_consumption,
           cumulative_consumption := r.cumulative_consumption - ha_consumption,
           data_method := r.data_method ++ "_adjusted" }

/-- Filter for the downstream HA device row (main.py lines 1207-1210). -/
def haDevicePred (entity_id : String) (r : Row) : Bool :=
  r.entity_id == entity_id && r.data_source == "Home Assistant"

/-- Filter for the upstream Emporia row, matched by display name
(main.py lines 1218-1221); membership of the hour is part of the predicate
because the model locates the row in the whole table. -/
def upstreamPred (ts : ℤ) (upstream_device : String) (r : Row) : Bool :=
  r.datetime == ts && r.sensor_name == upstream_device && r.data_source == "Emporia"

/-- Inner loop body of `apply_upstream_device_adjustments` (main.py lines
1198-1244) for one mapping entry at one timestamp.  `hour_data` is the
snapshot of the hour taken at the top of the timestamp loop (line 1195);
since adjustments never change the fields the filters read (datetime, names,
source), locating the first matching upstream row directly in the live table
is equivalent to locating it through the snapshot, and the live read
`adjusted_df.loc[upstream_index, …]` is modelled by `adjustFirst` reading the
current row. -/
def adjustStep (ts : ℤ) (hour_data : List Row) (acc : List Row) (m : Mapping) : List Row :=
  if hasUpstream m then
    match hour_data.find? (haDevicePred m.entity_id) with
    | none => acc
    | some ha_device =>
      adjustFirst (upstreamPred ts m.upstream_sensor) (adjustRow ha_device.hourly_consumption) acc
  else acc

/-- Comparison used to sort plain timestamp lists. -/
def intLe (a b : ℤ) : Bool := decide (a ≤ b)

/-- `sorted(adjusted_df['datetime'].unique())` (main.py line 1191). -/
def sortedUniqueDatetimes (rows : List Row) : List ℤ :=
  sortLe intLe (rows.map Row.datetime).dedup

/-- `HAHistoryMain.apply_upstream_device_adjustments` (main.py lines
1168-1257): for every timestamp (ascending) and every mapping entry with an
upstream device, subtract the HA device's hourly consumption at that hour
from the first matching upstream Emporia row of that hour.  With no loaded
mappings the input is returned unchanged (lines 1182-1183). -/
def apply_upstream_device_adjustments (sensor_names : List Mapping)
    (combined : List Row) : List Row :=
  if sensor_names.isEmpty then combined
  else
    (sortedUniqueDatetimes combined).foldl (fun acc ts =>
      let hour_data := acc.filter (fun r => r.datetime == ts)
      sensor_names.foldl (adjustStep ts hour_data) acc) combined

/-- One timestamp iteration of `apply_upstream_device_adjustments` for a
single-entry mapping list (the body of the loop of main.py lines 1194-1244
when `sensor_names` has one entry): snapshot the hour's rows, then run the
single adjustment step.  `apply_upstream_device_adjustments [m] rows` is
definitionally the left fold of this function over the sorted distinct
timestamps. -/
def adjustCycleStep (m : Mapping) (acc : List Row) (ts : ℤ) : List Row :=
  adjustStep ts (acc.filter (fun r => r.datetime == ts)) acc m

/-! ## Consumption analysis (derived rows), main.py lines 1259-1397 -/

/-- The two always-aggregate channels excluded from the reconciled table
(main.py lines 1273-1278). -/
def excluded_entities : List String :=
  ["sensor.emporia_emporia_grid_balance_today_s_consumption",
   "sensor.emporia_emporia_total_usage_today_s_consumption"]

/-- Sum of the `hourly_consumption` column. -/
def sumHourly (rows : List Row) : ℚ :=
  (rows.map Row.hourly_consumption).sum

/-- The three derived analysis rows for one timestamp (main.py lines
1288-1352): `total_consumption = main_panel + solar`,
`total_individual_sensors` summing every other sensor of the hour, and
`untracked = total_consumption - total_individual_sensors`. -/
def analysisRowsAt (filtered : List Row) (ts : ℤ) : List Row :=
  let hour_data := filtered.filter (fun r => r.datetime == ts)
  let main_panel := sumHourly (hour_data.filter (fun r => r.sensor_name == "main_panel"))
  let solar := sumHourly (hour_data.filter (fun r => r.sensor_name == "solar"))
  let total_consumption := main_panel + solar
  let individual_sensors := sumHourly (hour_data.filter
    (fun r => !(r.sensor_name == "main_panel" || r.sensor_name == "solar")))
  let untracked := total_consumption - individual_sensors
  [{ datetime := ts, entity_id := "analysis.total_consumption",
     sensor_name := "total_consumption",
     cumulative_consumption := total_consumption,
     hourly_consumption := total_consumption,
     data_method := "calculated", data_source := "Analysis" },
   { datetime := ts, entity_id := "analysis.total_individual_sensors",
     sensor_name := "total_individual_sensors",
     cumulative_consumption := individual_sensors,
     hourly_consumption := individual_sensors,
     data_method := "calculated", data_source := "Analysis" },
   { datetime := ts, entity_id := "analysis.untracked",
     sensor_name := "untracked",
     cumulative_consumption := untracked,
     hourly_consumption := untracked,
     data_method := "calculated", data_source := "Analysis" }]

/-- Concatenation of the analysis rows over the distinct timestamps
(the `analysis_rows` list built by the loop of main.py lines 1288-1352). -/
def analysisRows (filtered : List Row) : List ℤ → List Row
  | [] => []
  | ts :: tss => analysisRowsAt filtered ts ++ analysisRows filtered tss

/-- A row of the analyzed table: the base columns plus the `row_type` and
`peak_hours` columns added at main.py lines 1362-1371. -/
structure ARow where
  row : Row
  row_type : String
  peak_hours : Bool
deriving DecidableEq, Repr

/-- The `row_type` tag (main.py lines 1362-1366). -/
def rowTypeOf (sensor_name : String) : String :=
  if ["main_panel", "total_consumption", "total_individual_sensors"].contains sensor_name
  then "Total" else "Individual"

/-- `HAHistoryMain.add_consumption_analysis` (main.py lines 1259-1397),
parametrized by the peak-hour classifier `peak` (`self._is_peak_hour`):
filter out the two aggregate channels, append the three derived rows per
distinct timestamp of the filtered table, and tag every resulting row with
`row_type` and `peak_hours`. -/
def add_consumption_analysis (peak : ℤ → Bool) (combined : List Row) : List ARow :=
  let filtered := combined.filter (fun r => !(excluded_entities.contains r.entity_id))
  let timestamps := sortLe intLe (filtered.map Row.datetime).dedup
  let result := filtered ++ analysisRows filtered timestamps
  result.map (fun r =>
    { row := r, row_type := rowTypeOf r.sensor_name, peak_hours := peak r.datetime })

/-! ## Peak-hour classification (main.py lines 1399-1440)

The Python implementation parses the row's local datetime string and uses
`datetime.weekday()` and the external `holidays` library.  The calendar
arithmetic is modelled on the seconds-since-epoch timestamp; the `holidays`
library is a parameter (a predicate on local day numbers together with an
availability flag, mirroring `HOLIDAYS_AVAILABLE`). -/

/-- The local calendar day number of a timestamp (days since 1970-01-01). -/
def dayOf (t : ℤ) : ℤ := t / 86400

/-- The hour-of-day component of a timestamp. -/
def hourOf (t : ℤ) : ℤ := (t % 86400) / 3600

/-- Python's `datetime.weekday()`: Monday = 0 … Sunday = 6.
Day 0 (1970-01-01) was a Thursday (= 3). -/
def weekdayOf (t : ℤ) : ℤ := (dayOf t + 3) % 7

/-- `HAHistoryMain._is_peak_hour` (main.py lines 1399-1440): weekends are
never peak (lines 1416-1418); a recognized US holiday — consulted only when
the `holidays` library is available — is never peak (lines 1420-1433),
otherwise classification silently degrades to weekday-only; else peak iff the
hour of day lies in 7..20 (lines 1435-1437). -/
def is_peak_hour (holidays_available : Bool) (is_us_holiday : ℤ → Bool) (t : ℤ) : Bool :=
  if weekdayOf t ≥ 5 then false
  else if holidays_available && is_us_holiday (dayOf t) then false
  else decide (7 ≤ hourOf t ∧ hourOf t ≤ 20)

/-- Day count of a civil (proleptic Gregorian) date, with day 0 at
1970-01-01; used to name concrete local datetimes in the statements. -/
def daysFromCivil (y m d : ℤ) : ℤ :=
  let y' := if m ≤ 2 then y - 1 else y
  let era := y' / 400
  let yoe := y' - era * 400
  let doy := ((153 * (if 2 < m then m - 3 else m + 9) + 2) / 5) + d - 1
  let doe := yoe * 365 + yoe / 4 - yoe / 100 + doy
  era * 146097 + doe - 719468

/-- The timestamp of a local wall-clock date and hour. -/
def localTime (y m d h : ℤ) : ℤ := daysFromCivil y m d * 86400 + h * 3600

/-! ## The incremental merge engine (main.py lines 703-781, 1442-1480) -/

/-- Sort key of the merge (main.py line 749): `(datetime, entity_id)`. -/
def dtEntityLe (a b : Row) : Bool :=
  decide (a.datetime < b.datetime ∨ (a.datetime = b.datetime ∧ a.entity_id ≤ b.entity_id))

/-- Sort key of `save_hourly_data_to_csv` (main.py lines 1464-1471):
`(datetime, sensor_name)`. -/
def dtNameLe (a b : Row) : Bool :=
  decide (a.datetime < b.datetime ∨ (a.datetime = b.datetime ∧ a.sensor_name ≤ b.sensor_name))

/-- Core merge logic of `HAHistoryMain.merge_with_existing_analysis`
(main.py lines 738-749): drop every historical row whose datetime occurs
anywhere in the new batch, append the whole new batch, and sort by
`(datetime, entity_id)`. -/
def merge_with_existing_analysis (existing new_df : List Row) : List Row :=
  let overlapping_datetimes := new_df.map Row.datetime
  let filtered_existing := existing.filter (fun r => !(overlapping_datetimes.contains r.datetime))
  sortLe dtEntityLe (filtered_existing ++ new_df)

/-- The persisted historical table after a merge: `save_hourly_data_to_csv`
(main.py lines 1442-1474) re-sorts the merged table by
`(datetime, sensor_name)` before writing `energy_analysis.csv`. -/
def persistedMerge (existing new_df : List Row) : List Row :=
  sortLe dtNameLe (merge_with_existing_analysis existing new_df)

/-- The full row-identity key `(datetime, sensor_name, entity_id)`: it refines
both sort keys, so both sorts are stable on its fibers. -/
def rowKey (r : Row) : ℤ × String × String := (r.datetime, r.sensor_name, r.entity_id)

/-- Lexicographic comparison of full row keys: the order in which the
persisted table ends up after the merge sort followed by the save sort. -/
def keyLe (a b : Row) : Prop :=
  a.datetime < b.datetime ∨ (a.datetime = b.datetime ∧
    (a.sensor_name < b.sensor_name ∨
      (a.sensor_name = b.sensor_name ∧ a.entity_id ≤ b.entity_id)))

/-! ## Properties of the sort -/

theorem insertLe_perm {α : Type} (le : α → α → Bool) (a : α) (l : List α) :
    (insertLe le a l).Perm (a :: l) := by
  induction l with
  | nil => exact List.Perm.refl _
  | cons b l ih =>
    simp only [insertLe]
    split
    · exact List.Perm.refl _
    · exact (List.Perm.cons b ih).trans (List.Perm.swap a b l)

theorem sortLe_perm {α : Type} (le : α → α → Bool) (l : List α) :
    (sortLe le l).Perm l := by
  induction l with
  | nil => exact List.Perm.refl _
  | cons a l ih =>
    exact (insertLe_perm le a (sortLe le l)).trans (List.Perm.cons a ih)

theorem mem_sortLe {α : Type} (le : α → α → Bool) (l : List α) (x : α) :
    x ∈ sortLe le l ↔ x ∈ l :=
  (sortLe_perm le l).mem_iff

theorem sortLe_nodup {α : Type} (le : α → α → Bool) (l : List α) (h : l.Nodup) :
    (sortLe le l).Nodup :=
  ((sortLe_perm le l).nodup_iff).mpr h

/-- Sortedness of insertion: needs totality and transitivity of `le`. -/
theorem insertLe_pairwise {α : Type} (le : α → α → Bool)
    (htot : ∀ a b, le a b = true ∨ le b a = true)
    (htrans : ∀ a b c, le a b = true → le b c = true → le a c = true)
    (a : α) (l : List α) (h : l.Pairwise (fun x y => le x y = true)) :
    (insertLe le a l).Pairwise (fun x y => le x y = true) := by
  induction l with
  | nil => simp [insertLe]
  | cons b l ih =>
    rcases List.pairwise_cons.mp h with ⟨hb, hl⟩
    simp only [insertLe]
    split
    · rename_i hab
      refine List.pairwise_cons.mpr ⟨?_, h⟩
      intro y hy
      rcases List.mem_cons.mp hy with rfl | hy'
      · exact hab
      · exact htrans a b y hab (hb _ hy')
    · rename_i hab
      have hba : le b a = true := by
        rcases htot a b with h' | h'
        · exact absurd h' hab
        · exact h'
      refine List.pairwise_cons.mpr ⟨?_, ih hl⟩
      intro y hy
      rcases List.mem_cons.mp ((insertLe_perm le a l).mem_iff.mp hy) with rfl | h'
      · exact hba
      · exact hb _ h'

theorem sortLe_pairwise {α : Type} (le : α → α → Bool)
    (htot : ∀ a b, le a b = true ∨ le b a = true)
    (htrans : ∀ a b c, le a b = true → le b c = true → le a c = true)
    (l : List α) :
    (sortLe le l).Pairwise (fun x y => le x y = true) := by
  induction l with
  | nil => simp [sortLe]
  | cons a l ih => exact insertLe_pairwise le htot htrans a _ ih

/-- Stability of the sort with respect to any key `κ` that separates
incomparable elements: filtering out the fiber of a key commutes with the
sort.  The hypothesis holds whenever `le` is the (total) comparison of a key
refined by `κ`. -/
theorem filter_insertLe_key {α β : Type} [BEq β] [LawfulBEq β] (le : α → α → Bool)
    (κ : α → β) (hle : ∀ a b, le a b = false → κ a ≠ κ b)
    (a : α) (l : List α) (k : β) :
    (insertLe le a l).filter (fun x => κ x == k) =
      (a :: l).filter (fun x => κ x == k) := by
  induction l with
  | nil => simp [insertLe]
  | cons b l ih =>
    simp only [insertLe]
    split
    · rfl
    · rename_i hab
      have hname : κ b ≠ κ a := Ne.symm (hle a b (by simpa using hab))
      by_cases hk : κ a = k
      · have hbk : (κ b == k) = false := by
          simp only [beq_eq_false_iff_ne]
          exact fun h => hname (h.trans hk.symm)
        simp only [List.filter_cons, hbk]
        rw [ih]
        simp [List.filter_cons, hbk]
      · have hak : (κ a == k) = false := beq_eq_false_iff_ne.mpr hk
        simp only [List.filter_cons, hak] at ih ⊢
        split <;> simp [ih]

theorem filter_sortLe_key {α β : Type} [BEq β] [LawfulBEq β] (le : α → α → Bool)
    (κ : α → β) (hle : ∀ a b, le a b = false → κ a ≠ κ b)
    (l : List α) (k : β) :
    (sortLe le l).filter (fun x => κ x == k) = l.filter (fun x => κ x == k) := by
  induction l with
  | nil => rfl
  | cons a l ih =>
    simp only [sortLe]
    rw [filter_insertLe_key le κ hle a _ k]
    simp only [List.filter_cons]
    split <;> simp [ih]

theorem le_pymax_left (a b : ℚ) : a ≤ pymax a b := by
  unfold pymax; split <;> simp_all

/-! ## Proof of the reconstructor invariant -/

theorem hourStep_recOk (sn : List (String × String)) (sid : String)
    (sd : List Obs) (acc : List HRecord) (hour : ℤ)
    (hacc : ∀ r ∈ acc, RecOk sd r) :
    ∀ r ∈ hourStep sn sid sd acc hour, RecOk sd r := by
  intro r hr
  unfold hourStep at hr
  rcases hv : interpolate_hourly_value sd hour with _ | v
  · rw [hv] at hr
    exact hacc r hr
  · rw [hv] at hr
    rcases List.mem_append.mp hr with h | h
    · exact hacc r h
    · have hre : r = _ := List.mem_singleton.mp h
      subst hre
      refine ⟨hv, ?_, ?_⟩
      · rcases acc.getLast? with _ | prev
        · simp
        · simp only
          split <;> simp
      · rcases acc.getLast? with _ | prev
        · simp
        · simp only
          split <;> exact le_pymax_left 0 _

theorem foldl_hourStep_recOk (sn : List (String × String)) (sid : String)
    (sd : List Obs) (hours : List ℤ) (init : List HRecord)
    (hinit : ∀ r ∈ init, RecOk sd r) :
    ∀ r ∈ hours.foldl (hourStep sn sid sd) init, RecOk sd r := by
  induction hours generalizing init with
  | nil => exact hinit
  | cons h hs ih =>
    exact ih (hourStep sn sid sd init h) (hourStep_recOk sn sid sd init h hinit)

theorem calculate_recOk (sn : List (String × String)) (sid : String) (data : List Obs) :
    ∀ r ∈ calculate_hourly_consumption sn sid data, RecOk (sensorData sid data) r := by
  intro r hr
  exact foldl_hourStep_recOk sn sid _ _ [] (by simp) r hr

/-! ## Small list lemmas -/

theorem mem_of_head?_eq_some {α : Type} {l : List α} {a : α}
    (h : l.head? = some a) : a ∈ l := by
  cases l with
  | nil => simp at h
  | cons x xs => simp at h; simp [h]

theorem mem_of_getLast?_eq_some {α : Type} {l : List α} {a : α}
    (h : l.getLast? = some a) : a ∈ l := by
  induction l with
  | nil => simp at h
  | cons x xs ih =>
    cases xs with
    | nil => simp at h; simp [h]
    | cons y ys =>
      rw [List.getLast?_cons_cons] at h
      exact List.mem_cons_of_mem x (ih h)

theorem foldl_min_of_le (l : List ℤ) (a : ℤ) (h : ∀ x ∈ l, a ≤ x) :
    l.foldl min a = a := by
  induction l generalizing a with
  | nil => rfl
  | cons b l ih =>
    have hab : a ≤ b := h b (List.mem_cons_self b l)
    simp only [List.foldl_cons, min_eq_left hab]
    exact ih a (fun x hx => h x (List.mem_cons_of_mem b hx))

/-! ## Claim C10 and its witness -/

/-- Claim C10: the interpolation step never divides by zero.  Whenever a
bracketing pair exists (the nearest observation strictly before the target
hour and the nearest strictly after it), the before observation's timestamp is
strictly smaller than the target's and the after observation's strictly
larger, so the time-difference divisor is strictly positive; consequently, in
the non-exact, non-reset case the function returns the linear interpolation
with that positive divisor (the `time_diff == 0` guard that would return the
before value is never taken). -/
theorem C10_interpolation_divisor_positive (df_sensor : List Obs) (target : ℤ)
    (b a : Obs)
    (hb : (beforeObs df_sensor target).getLast? = some b)
    (ha : (afterObs df_sensor target).head? = some a)
    (hnone : df_sensor.find? (fun o => o.t == target) = none)
    (hreset : ¬(a.v - b.v < -(1/10 : ℚ))) :
    b.t < target ∧ target < a.t ∧ (0 : ℚ) < ((a.t - b.t : ℤ) : ℚ) ∧
    interpolate_hourly_value df_sensor target =
      some (b.v + (a.v - b.v) * ((target - b.t : ℤ) : ℚ) / ((a.t - b.t : ℤ) : ℚ)) := by
  have hbt : b.t < target := by
    have := (List.mem_filter.mp (mem_of_getLast?_eq_some hb)).2
    simpa using this
  have hat : target < a.t := by
    have := (List.mem_filter.mp (mem_of_head?_eq_some ha)).2
    simpa using this
  have hpos : (0 : ℚ) < ((a.t - b.t : ℤ) : ℚ) := by
    have : (0 : ℤ) < a.t - b.t := by omega
    exact_mod_cast this
  refine ⟨hbt, hat, hpos, ?_⟩
  unfold interpolate_hourly_value
  rw [hnone, hb, ha]
  simp only [if_neg hreset]
  rw [if_neg (by omega : ¬(a.t - b.t = 0))]

/-- Witness for C10 at a concrete bracketing pair. -/
theorem C10_witness :
    (⟨"s", 0, 0⟩ : Obs).t < 3600 ∧ (3600 : ℤ) < (⟨"s", 7200, 2⟩ : Obs).t ∧
    (0 : ℚ) < (((⟨"s", 7200, 2⟩ : Obs).t - (⟨"s", 0, 0⟩ : Obs).t : ℤ) : ℚ) ∧
    interpolate_hourly_value [⟨"s", 0, 0⟩, ⟨"s", 7200, 2⟩] 3600 =
      some ((⟨"s", 0, 0⟩ : Obs).v +
        ((⟨"s", 7200, 2⟩ : Obs).v - (⟨"s", 0, 0⟩ : Obs).v) *
          ((3600 - (⟨"s", 0, 0⟩ : Obs).t : ℤ) : ℚ) /
          (((⟨"s", 7200, 2⟩ : Obs).t - (⟨"s", 0, 0⟩ : Obs).t : ℤ) : ℚ)) :=
  C10_interpolation_divisor_positive [⟨"s", 0, 0⟩, ⟨"s", 7200, 2⟩] 3600
    ⟨"s", 0, 0⟩ ⟨"s", 7200, 2⟩ (by decide) (by decide) (by decide)
    (by with_unfolding_all decide)

/-! ## Claim C9: the hour grid -/

theorem truncHour_le (t : ℤ) : truncHour t ≤ t := by
  have h := Int.ediv_add_emod t 3600
  have h2 : 0 ≤ t % 3600 := Int.emod_nonneg t (by norm_num)
  unfold truncHour
  omega

theorem truncHour_mono {s t : ℤ} (h : s ≤ t) : truncHour s ≤ truncHour t := by
  unfold truncHour
  have := Int.ediv_le_ediv (by norm_num : (0:ℤ) < 3600) h
  omega

theorem truncHour_dvd (t : ℤ) : (3600 : ℤ) ∣ truncHour t := ⟨t / 3600, mul_comm _ _⟩

theorem truncHour_eq_self {t : ℤ} (h : t % 3600 = 0) : truncHour t = t := by
  have hd := Int.ediv_add_emod t 3600
  unfold truncHour
  omega

theorem hourRange_head? (a b : ℤ) : (hourRange a b).head? = some a := by
  unfold hourRange
  rw [List.range_succ_eq_map]
  simp

theorem hourRange_getLast? (a b : ℤ) (hab : a ≤ b) (hd : (3600 : ℤ) ∣ b - a) :
    (hourRange a b).getLast? = some b := by
  unfold hourRange
  rw [List.range_succ, List.map_append]
  simp only [List.map_cons, List.map_nil]
  rw [List.getLast?_concat]
  have hnn : 0 ≤ (b - a) / 3600 := Int.ediv_nonneg (by omega) (by norm_num)
  have hcast : (((b - a) / 3600).toNat : ℤ) = (b - a) / 3600 := Int.toNat_of_nonneg hnn
  have hmul : 3600 * ((b - a) / 3600) = b - a := Int.mul_ediv_cancel' hd
  congr 1
  omega

theorem obsMin_sorted (o0 : Obs) (rest : List Obs)
    (hs : (o0 :: rest).Pairwise (fun x y => x.t ≤ y.t)) :
    obsMin o0 rest = o0.t := by
  unfold obsMin
  refine foldl_min_of_le _ _ ?_
  intro x hx
  rcases List.mem_map.mp hx with ⟨o, ho, rfl⟩
  exact (List.pairwise_cons.mp hs).1 o ho

theorem obsMax_sorted (o0 : Obs) (rest : List Obs)
    (hs : (o0 :: rest).Pairwise (fun x y => x.t ≤ y.t)) :
    obsMax o0 rest = (rest.getLastD o0).t := by
  induction rest generalizing o0 with
  | nil => rfl
  | cons o1 r ih =>
    have h01 : o0.t ≤ o1.t := (List.pairwise_cons.mp hs).1 o1 (List.mem_cons_self o1 r)
    have hs' : (o1 :: r).Pairwise (fun x y => x.t ≤ y.t) := (List.pairwise_cons.mp hs).2
    have : obsMax o0 (o1 :: r) = obsMax o1 r := by
      unfold obsMax
      simp only [List.map_cons, List.foldl_cons]
      rw [max_eq_right h01]
    rw [this, ih o1 hs']
    rw [List.getLastD_cons]

theorem sorted_head_le_getLastD (o0 : Obs) (rest : List Obs)
    (hs : (o0 :: rest).Pairwise (fun x y => x.t ≤ y.t)) :
    o0.t ≤ (rest.getLastD o0).t := by
  cases rest with
  | nil => exact le_refl _
  | cons o1 r =>
    have hmem : (o1 :: r).getLastD o0 ∈ o1 :: r := by
      rw [List.getLastD_eq_getLast?]
      rw [List.getLast?_eq_getLast _ (by simp)]
      simp only [Option.getD_some]
      exact List.getLast_mem _
    exact (List.pairwise_cons.mp hs).1 _ hmem

/-- Claim C9: for a nonempty sorted observation list the generated hour grid
starts at the first observation's timestamp truncated to the hour, and ends at
the last observation's timestamp truncated to the hour plus two hours when the
last observation is not exactly on an hour boundary, and at the last
observation's timestamp plus exactly one hour when it is on the boundary. -/
theorem C9_hour_grid_bounds (o0 : Obs) (rest : List Obs)
    (hs : (o0 :: rest).Pairwise (fun x y => x.t ≤ y.t)) :
    (calcHourGrid (o0 :: rest)).head? = some (truncHour o0.t) ∧
    (calcHourGrid (o0 :: rest)).getLast? =
      some (if (rest.getLastD o0).t % 3600 ≠ 0
            then truncHour (rest.getLastD o0).t + 7200
            else (rest.getLastD o0).t + 3600) := by
  have hgrid : calcHourGrid (o0 :: rest) =
      hourRange (truncHour (obsMin o0 rest)) (endHourOf (obsMax o0 rest)) := rfl
  set lastT := (rest.getLastD o0).t with hlast
  have hmin : obsMin o0 rest = o0.t := obsMin_sorted o0 rest hs
  have hmax : obsMax o0 rest = lastT := obsMax_sorted o0 rest hs
  have h0last : o0.t ≤ lastT := sorted_head_le_getLastD o0 rest hs
  have hmono : truncHour o0.t ≤ truncHour lastT := truncHour_mono h0last
  constructor
  · rw [hgrid, hmin, hourRange_head?]
  · rw [hgrid, hmin, hmax]
    unfold endHourOf
    by_cases hmod : lastT % 3600 ≠ 0
    · rw [if_pos hmod, if_pos hmod]
      exact hourRange_getLast? _ _ (by omega)
        (dvd_sub (Dvd.dvd.add (truncHour_dvd lastT) (by norm_num)) (truncHour_dvd o0.t))
    · rw [if_neg hmod, if_neg hmod]
      push_neg at hmod
      rw [truncHour_eq_self hmod]
      have hdvd : (3600 : ℤ) ∣ lastT := by
        have h := Int.ediv_add_emod lastT 3600
        exact ⟨lastT / 3600, by omega⟩
      exact hourRange_getLast? _ _ (by have := truncHour_le o0.t; omega)
        (dvd_sub (Dvd.dvd.add hdvd (by norm_num)) (truncHour_dvd o0.t))

/-- Witness for C9: two observations, the last one not on an hour boundary
(so the grid ends two hours past its truncation). -/
theorem C9_witness :
    (calcHourGrid [⟨"s", 0, 5⟩, ⟨"s", 5400, 6⟩]).head? = some (truncHour 0) ∧
    (calcHourGrid [⟨"s", 0, 5⟩, ⟨"s", 5400, 6⟩]).getLast? =
      some (if (5400 : ℤ) % 3600 ≠ 0 then truncHour 5400 + 7200 else 5400 + 3600) :=
  C9_hour_grid_bounds ⟨"s", 0, 5⟩ [⟨"s", 5400, 6⟩] (by decide)

/-! ## Claim C4: reset containment on the concrete cumulative sequence -/

/-- Claim C4: for a single entity with hour-aligned cumulative values
`[10.0, 10.5, 0.2, 0.9]` at four consecutive hours, the reconstructor emits
hourly deltas `[0, 0.5, 0.2, 0.7]` — the first hour gets 0, and the drop from
10.5 to 0.2 (a delta below −0.1) is treated as a counter reset whose hourly
consumption is `max(0, 0.2) = 0.2`; the third hour's data method carries the
`reset_detected` suffix, and no emitted delta is negative. -/
theorem C4_reset_containment :
    ((calculate_hourly_consumption [("s", "s name")] "s" c4data).map
        HRecord.hourly_consumption = [0, 1/2, 1/5, 7/10]) ∧
    ((calculate_hourly_consumption [("s", "s name")] "s" c4data).map
        HRecord.data_method = ["exact", "exact", "exact_reset_detected", "exact"]) ∧
    "exact_reset_detected".endsWith "reset_detected" = true ∧
    (∀ r ∈ calculate_hourly_consumption [("s", "s name")] "s" c4data,
      0 ≤ r.hourly_consumption) := by
  with_unfolding_all decide

/-! ## Claim C8: exactness (corrected) -/

/-- Claim C8 counterexample: observations sit exactly on the two hours 0 and
3600 with values 10 and 0.2.  The record at hour 3600 takes the observation's
exact cumulative value (0.2), but because the drop triggers reset detection
its `data_method` is `exact_reset_detected`, not `exact` as the claim states. -/
theorem C8_counterexample :
    ((calculate_hourly_consumption [("s", "n")] "s" [⟨"s", 0, 10⟩, ⟨"s", 3600, 1/5⟩]).map
        (fun r => (r.datetime, r.cumulative_consumption, r.data_method)))
      = [(0, 10, "exact"), (3600, 1/5, "exact_reset_detected")] ∧
    (∃ o ∈ sensorData "s" [⟨"s", 0, 10⟩, ⟨"s", 3600, 1/5⟩], o.t = 3600) ∧
    ("exact_reset_detected" : String) ≠ "exact" := by
  with_unfolding_all decide

/-- Claim C8 (amended): if an observation exists at exactly an emitted hour,
the record's reconstructed cumulative value equals the first such
observation's value exactly, and its data method is exact-based — `exact`, or
`exact_reset_detected` when a counter reset is detected at that hour — never
an interpolated method. -/
theorem C8_exactness (sn : List (String × String)) (sid : String)
    (data : List Obs) (r : HRecord) (o : Obs)
    (hr : r ∈ calculate_hourly_consumption sn sid data)
    (ho : (sensorData sid data).find? (fun x => x.t == r.datetime) = some o) :
    r.cumulative_consumption = o.v ∧
    (r.data_method = "exact" ∨ r.data_method = "exact_reset_detected") := by
  obtain ⟨hcum, hmeth, -⟩ := calculate_recOk sn sid data r hr
  have hval : interpolate_hourly_value (sensorData sid data) r.datetime = some o.v := by
    unfold interpolate_hourly_value
    rw [ho]
  have hcv : r.cumulative_consumption = o.v :=
    Option.some.inj (hcum.symm.trans hval)
  have hp := List.find?_some ho
  have hexact : recordMethod (sensorData sid data) r.datetime = "exact" := by
    unfold recordMethod
    rw [if_pos]
    exact List.any_eq_true.mpr ⟨o, List.mem_of_find?_eq_some ho, hp⟩
  rw [hexact] at hmeth
  exact ⟨hcv, hmeth⟩

/-- Witness for the amended C8 at a single exact observation. -/
theorem C8_witness :
    ({ datetime := 0, entity_id := "s", sensor_name := "n",
       cumulative_consumption := 5, hourly_consumption := 0,
       data_method := "exact" } : HRecord).cumulative_consumption = (⟨"s", 0, 5⟩ : Obs).v ∧
    (({ datetime := 0, entity_id := "s", sensor_name := "n",
        cumulative_consumption := 5, hourly_consumption := 0,
        data_method := "exact" } : HRecord).data_method = "exact" ∨
     ({ datetime := 0, entity_id := "s", sensor_name := "n",
        cumulative_consumption := 5, hourly_consumption := 0,
        data_method := "exact" } : HRecord).data_method = "exact_reset_detected") :=
  C8_exactness [("s", "n")] "s" [⟨"s", 0, 5⟩] _ ⟨"s", 0, 5⟩
    (by with_unfolding_all decide) (by with_unfolding_all decide)

/-! ## Claim C1: non-negativity (corrected) -/

/-- Claim C1 counterexample: an upstream-adjusted row of the reconciliation
pipeline with negative hourly consumption.  The downstream HA device reports
2 kWh at an hour where its upstream Emporia device reports only 1 kWh, so the
upstream row is adjusted to 1 − 2 = −1 kWh and the produced table violates
`hourly_consumption ≥ 0` (likewise, derived `untracked` rows may be
negative). -/
theorem C1_counterexample :
    ∃ r ∈ apply_upstream_device_adjustments [⟨"sensor.d", "d", "up"⟩]
        [⟨0, "sensor.d", "d", 10, 2, "exact", "Home Assistant"⟩,
         ⟨0, "sensor.up", "up", 10, 1, "emporia_direct", "Emporia"⟩],
      r.hourly_consumption < 0 := by
  with_unfolding_all decide

/-- Claim C1 (amended): every HourlyRecord produced by the hourly
reconstructor (`calculate_hourly_consumption`) has nonnegative hourly
consumption; the first hour gets 0, resets yield `max 0 cumulative`, and all
other deltas are clamped by `max 0`.  (Upstream-adjusted rows and derived
`untracked` rows are not covered: they may go negative, see the
counterexample.) -/
theorem C1_reconstructor_nonneg (sn : List (String × String)) (sid : String)
    (data : List Obs) (r : HRecord)
    (hr : r ∈ calculate_hourly_consumption sn sid data) :
    0 ≤ r.hourly_consumption :=
  (calculate_recOk sn sid data r hr).2.2

/-- Witness for the amended C1. -/
theorem C1_witness :
    (0 : ℚ) ≤ ({ datetime := 0, entity_id := "s", sensor_name := "n",
                 cumulative_consumption := 5, hourly_consumption := 0,
                 data_method := "exact" } : HRecord).hourly_consumption :=
  C1_reconstructor_nonneg [("s", "n")] "s" [⟨"s", 0, 5⟩] _
    (by with_unfolding_all decide)

/-! ## Properties of the merge sort keys -/

theorem dtEntityLe_total (a b : Row) : dtEntityLe a b = true ∨ dtEntityLe b a = true := by
  unfold dtEntityLe
  simp only [decide_eq_true_eq]
  rcases lt_trichotomy a.datetime b.datetime with h | h | h
  · exact Or.inl (Or.inl h)
  · rcases le_total a.entity_id b.entity_id with h2 | h2
    · exact Or.inl (Or.inr ⟨h, h2⟩)
    · exact Or.inr (Or.inr ⟨h.symm, h2⟩)
  · exact Or.inr (Or.inl h)

theorem dtEntityLe_trans (a b c : Row) (h1 : dtEntityLe a b = true)
    (h2 : dtEntityLe b c = true) : dtEntityLe a c = true := by
  unfold dtEntityLe at h1 h2 ⊢
  simp only [decide_eq_true_eq] at h1 h2 ⊢
  rcases h1 with h1 | ⟨h1, h1'⟩ <;> rcases h2 with h2 | ⟨h2, h2'⟩
  · exact Or.inl (h1.trans h2)
  · exact Or.inl (h2 ▸ h1)
  · exact Or.inl (h1 ▸ h2)
  · exact Or.inr ⟨h1.trans h2, le_trans h1' h2'⟩

theorem dtNameLe_total (a b : Row) : dtNameLe a b = true ∨ dtNameLe b a = true := by
  unfold dtNameLe
  simp only [decide_eq_true_eq]
  rcases lt_trichotomy a.datetime b.datetime with h | h | h
  · exact Or.inl (Or.inl h)
  · rcases le_total a.sensor_name b.sensor_name with h2 | h2
    · exact Or.inl (Or.inr ⟨h, h2⟩)
    · exact Or.inr (Or.inr ⟨h.symm, h2⟩)
  · exact Or.inr (Or.inl h)

theorem dtNameLe_trans (a b c : Row) (h1 : dtNameLe a b = true)
    (h2 : dtNameLe b c = true) : dtNameLe a c = true := by
  unfold dtNameLe at h1 h2 ⊢
  simp only [decide_eq_true_eq] at h1 h2 ⊢
  rcases h1 with h1 | ⟨h1, h1'⟩ <;> rcases h2 with h2 | ⟨h2, h2'⟩
  · exact Or.inl (h1.trans h2)
  · exact Or.inl (h2 ▸ h1)
  · exact Or.inl (h1 ▸ h2)
  · exact Or.inr ⟨h1.trans h2, le_trans h1' h2'⟩

theorem rowKey_eq_iff (a b : Row) :
    rowKey a = rowKey b ↔
      a.datetime = b.datetime ∧ a.sensor_name = b.sensor_name ∧ a.entity_id = b.entity_id := by
  unfold rowKey
  constructor
  · intro h
    exact ⟨congrArg Prod.fst h, congrArg (Prod.fst ∘ Prod.snd) h,
      congrArg (Prod.snd ∘ Prod.snd) h⟩
  · rintro ⟨h1, h2, h3⟩
    rw [h1, h2, h3]

theorem dtEntityLe_false_key (a b : Row) (h : dtEntityLe a b = false) :
    rowKey a ≠ rowKey b := by
  intro hk
  rcases (rowKey_eq_iff a b).mp hk with ⟨h1, -, h3⟩
  unfold dtEntityLe at h
  simp only [decide_eq_false_iff_not, not_or, not_and] at h
  exact absurd (le_of_eq h3) (h.2 h1)

theorem dtNameLe_false_key (a b : Row) (h : dtNameLe a b = false) :
    rowKey a ≠ rowKey b := by
  intro hk
  rcases (rowKey_eq_iff a b).mp hk with ⟨h1, h2, -⟩
  unfold dtNameLe at h
  simp only [decide_eq_false_iff_not, not_or, not_and] at h
  exact absurd (le_of_eq h2) (h.2 h1)

theorem keyLe_trans {a b c : Row} (h1 : keyLe a b) (h2 : keyLe b c) : keyLe a c := by
  unfold keyLe at h1 h2 ⊢
  rcases h1 with h1 | ⟨hd1, h1⟩
  · rcases h2 with h2 | ⟨hd2, -⟩
    · exact Or.inl (h1.trans h2)
    · exact Or.inl (hd2 ▸ h1)
  · rcases h2 with h2 | ⟨hd2, h2⟩
    · exact Or.inl (hd1 ▸ h2)
    · refine Or.inr ⟨hd1.trans hd2, ?_⟩
      rcases h1 with h1 | ⟨hn1, h1⟩
      · rcases h2 with h2 | ⟨hn2, -⟩
        · exact Or.inl (h1.trans h2)
        · exact Or.inl (hn2 ▸ h1)
      · rcases h2 with h2 | ⟨hn2, h2⟩
        · exact Or.inl (hn1 ▸ h2)
        · exact Or.inr ⟨hn1.trans hn2, le_trans h1 h2⟩

theorem keyLe_antisymm {a b : Row} (h1 : keyLe a b) (h2 : keyLe b a) :
    rowKey a = rowKey b := by
  unfold keyLe at h1 h2
  rw [rowKey_eq_iff]
  rcases h1 with h1 | ⟨hd1, h1⟩
  · rcases h2 with h2 | ⟨hd2, -⟩
    · exact absurd (h1.trans h2) (lt_irrefl _)
    · exact absurd h1 (hd2 ▸ lt_irrefl _)
  · rcases h2 with h2 | ⟨hd2, h2⟩
    · exact absurd h2 (hd1 ▸ lt_irrefl _)
    · refine ⟨hd1, ?_⟩
      rcases h1 with h1 | ⟨hn1, h1⟩
      · rcases h2 with h2 | ⟨hn2, -⟩
        · exact absurd (h1.trans h2) (lt_irrefl _)
        · exact absurd h1 (hn2 ▸ lt_irrefl _)
      · rcases h2 with h2 | ⟨hn2, h2⟩
        · exact absurd h2 (hn1 ▸ lt_irrefl _)
        · exact ⟨hn1, le_antisymm h1 h2⟩

theorem dtNameLe_of_keyLe {a b : Row} (h : keyLe a b) : dtNameLe a b = true := by
  unfold keyLe at h
  unfold dtNameLe
  simp only [decide_eq_true_eq]
  rcases h with h | ⟨hd, h⟩
  · exact Or.inl h
  · rcases h with h | ⟨hn, -⟩
    · exact Or.inr ⟨hd, le_of_lt h⟩
    · exact Or.inr ⟨hd, le_of_eq hn⟩

theorem keyLe_of_dtNameLe_false {a b : Row} (h : dtNameLe a b = false) : keyLe b a := by
  unfold dtNameLe at h
  simp only [decide_eq_false_iff_not, not_or, not_and, not_le] at h
  unfold keyLe
  rcases lt_trichotomy a.datetime b.datetime with hd | hd | hd
  · exact absurd hd h.1
  · exact Or.inr ⟨hd.symm, Or.inl (h.2 hd)⟩
  · exact Or.inl hd

theorem keyLe_of_dtNameLe_strict {a b : Row} (h : dtNameLe a b = true)
    (hne : ¬(a.datetime = b.datetime ∧ a.sensor_name = b.sensor_name)) : keyLe a b := by
  unfold dtNameLe at h
  simp only [decide_eq_true_eq] at h
  unfold keyLe
  rcases h with h | ⟨hd, hn⟩
  · exact Or.inl h
  · refine Or.inr ⟨hd, Or.inl ?_⟩
    rcases lt_or_eq_of_le hn with h' | h'
    · exact h'
    · exact absurd ⟨hd, h'⟩ hne

/-! ## The save sort refines the merge sort into the full key order -/

theorem insertLe_dtNameLe_keyLe (a : Row) (L : List Row)
    (hL : L.Pairwise keyLe)
    (hside : ∀ b ∈ L, a.datetime = b.datetime → a.sensor_name = b.sensor_name → keyLe a b) :
    (insertLe dtNameLe a L).Pairwise keyLe := by
  induction L with
  | nil => simp [insertLe, List.pairwise_cons]
  | cons y ys ih =>
    rcases List.pairwise_cons.mp hL with ⟨hy, hys⟩
    simp only [insertLe]
    split
    · rename_i hay
      refine List.pairwise_cons.mpr ⟨?_, hL⟩
      intro b hb
      have hdn : dtNameLe a b = true := by
        rcases List.mem_cons.mp hb with rfl | hb'
        · exact hay
        · exact dtNameLe_trans a y b hay (dtNameLe_of_keyLe (hy b hb'))
      by_cases hk : a.datetime = b.datetime ∧ a.sensor_name = b.sensor_name
      · exact hside b hb hk.1 hk.2
      · exact keyLe_of_dtNameLe_strict hdn hk
    · rename_i hay
      have hay' : dtNameLe a y = false := by simpa using hay
      refine List.pairwise_cons.mpr ⟨?_, ?_⟩
      · intro b hb
        rcases List.mem_cons.mp ((insertLe_perm dtNameLe a ys).mem_iff.mp hb) with rfl | hb'
        · exact keyLe_of_dtNameLe_false hay'
        · exact hy b hb'
      · exact ih hys (fun b hb h1 h2 => hside b (List.mem_cons_of_mem y hb) h1 h2)

theorem sortLe_dtNameLe_keyLe (m : List Row)
    (hm : m.Pairwise (fun a b => dtEntityLe a b = true)) :
    (sortLe dtNameLe m).Pairwise keyLe := by
  induction m with
  | nil => simp [sortLe]
  | cons a m' ih =>
    rcases List.pairwise_cons.mp hm with ⟨ha, hm'⟩
    refine insertLe_dtNameLe_keyLe a (sortLe dtNameLe m') (ih hm') ?_
    intro b hb h1 h2
    have hb' : b ∈ m' := (sortLe_perm dtNameLe m').mem_iff.mp hb
    have he : dtEntityLe a b = true := ha b hb'
    unfold dtEntityLe at he
    simp only [decide_eq_true_eq] at he
    unfold keyLe
    rcases he with he | ⟨-, he⟩
    · exact Or.inl he
    · exact Or.inr ⟨h1, Or.inr ⟨h2, he⟩⟩

/-- A `keyLe`-sorted list is determined by its `rowKey` fibers. -/
theorem sorted_fiber_unique (l1 l2 : List Row)
    (h1 : l1.Pairwise keyLe) (h2 : l2.Pairwise keyLe)
    (hf : ∀ k, l1.filter (fun r => rowKey r == k) = l2.filter (fun r => rowKey r == k)) :
    l1 = l2 := by
  induction l1 generalizing l2 with
  | nil =>
    cases l2 with
    | nil => rfl
    | cons y t2 =>
      have := hf (rowKey y)
      simp [List.filter_cons] at this
  | cons x t1 ih =>
    cases l2 with
    | nil =>
      have := hf (rowKey x)
      simp [List.filter_cons] at this
    | cons y t2 =>
      rcases List.pairwise_cons.mp h1 with ⟨hx, ht1⟩
      rcases List.pairwise_cons.mp h2 with ⟨hy, ht2⟩
      have hfx := hf (rowKey x)
      rw [List.filter_cons_of_pos (by simp)] at hfx
      have hx2 : x ∈ y :: t2 := by
        have hm : x ∈ (y :: t2).filter (fun r => rowKey r == rowKey x) := by
          rw [← hfx]
          exact List.mem_cons_self _ _
        exact (List.mem_filter.mp hm).1
      have hy1 : y ∈ x :: t1 := by
        have hm : y ∈ (x :: t1).filter (fun r => rowKey r == rowKey y) := by
          rw [hf (rowKey y), List.filter_cons_of_pos (by simp)]
          exact List.mem_cons_self _ _
        exact (List.mem_filter.mp hm).1
      have hkey : rowKey x = rowKey y := by
        rcases List.mem_cons.mp hx2 with heq | hx2'
        · exact congrArg rowKey heq
        · rcases List.mem_cons.mp hy1 with heq | hy1'
          · exact (congrArg rowKey heq).symm
          · exact keyLe_antisymm (hx y hy1') (hy x hx2')
      rw [List.filter_cons_of_pos (by simp [← hkey])] at hfx
      injection hfx with hxy htf
      subst hxy
      congr 1
      refine ih t2 ht1 ht2 ?_
      intro k
      by_cases hk : k = rowKey x
      · subst hk
        exact htf
      · have hfk := hf k
        have hcond : ¬(rowKey x == k) = true := by
          simp only [beq_iff_eq]
          exact fun h => hk h.symm
        rw [List.filter_cons_of_neg (by simpa using hcond),
            List.filter_cons_of_neg (by simpa using hcond)] at hfk
        exact hfk

/-! ## Claims C2 and C6: the incremental merge engine -/

theorem fiber_persistedMerge (E N : List Row) (k : ℤ × String × String) :
    (persistedMerge E N).filter (fun r => rowKey r == k) =
      (E.filter (fun r => !((N.map Row.datetime).contains r.datetime)) ++ N).filter
        (fun r => rowKey r == k) := by
  unfold persistedMerge merge_with_existing_analysis
  rw [filter_sortLe_key dtNameLe rowKey dtNameLe_false_key,
      filter_sortLe_key dtEntityLe rowKey dtEntityLe_false_key]

theorem persistedMerge_pairwise (E N : List Row) :
    (persistedMerge E N).Pairwise keyLe := by
  unfold persistedMerge merge_with_existing_analysis
  exact sortLe_dtNameLe_keyLe _
    (sortLe_pairwise dtEntityLe dtEntityLe_total dtEntityLe_trans _)

/-- Claim C6: merging the same new hourly batch into a historical table twice
in succession yields the same final persisted historical table as merging it
once — the second merge removes exactly the rows the first merge inserted and
re-inserts identical rows. -/
theorem C6_merge_idempotent (existing new_df : List Row) :
    persistedMerge (persistedMerge existing new_df) new_df =
      persistedMerge existing new_df := by
  refine sorted_fiber_unique _ _ (persistedMerge_pairwise _ _) (persistedMerge_pairwise _ _) ?_
  intro k
  rw [fiber_persistedMerge, fiber_persistedMerge]
  rw [List.filter_append, List.filter_append]
  congr 1
  rw [List.filter_comm]
  rw [fiber_persistedMerge, List.filter_append]
  rw [List.filter_append]
  have hA : ((existing.filter (fun r => !((new_df.map Row.datetime).contains r.datetime))).filter
      (fun r => rowKey r == k)).filter (fun r => !((new_df.map Row.datetime).contains r.datetime)) =
      (existing.filter (fun r => !((new_df.map Row.datetime).contains r.datetime))).filter
        (fun r => rowKey r == k) := by
    rw [List.filter_eq_self]
    intro a ha
    exact (List.mem_filter.mp (List.mem_filter.mp ha).1).2
  have hN : ((new_df.filter (fun r => rowKey r == k)).filter
      (fun r => !((new_df.map Row.datetime).contains r.datetime))) = [] := by
    rw [List.filter_eq_nil_iff]
    intro a ha
    have hmem : a.datetime ∈ new_df.map Row.datetime :=
      List.mem_map.mpr ⟨a, (List.mem_filter.mp ha).1, rfl⟩
    simp [hmem]
  rw [hA, hN, List.append_nil]

/-- Claim C2: merging a new hourly batch removes every historical row whose
datetime occurs anywhere in the batch — regardless of which entity it belongs
to — and concatenates the surviving historical rows with all rows of the new
batch (the merged table is a permutation, by sorting, of that concatenation).
In particular a historical entity row at an overlapping hour disappears even
when the batch has no row for that entity at that hour (second conjunct),
every batch row is present (third), and historical rows at non-overlapping
hours survive (fourth). -/
theorem C2_merge_replacement (existing new_df : List Row) :
    (merge_with_existing_analysis existing new_df).Perm
      (existing.filter (fun r => !((new_df.map Row.datetime).contains r.datetime)) ++ new_df) ∧
    (∀ r ∈ existing, r.datetime ∈ new_df.map Row.datetime → r ∉ new_df →
      r ∉ merge_with_existing_analysis existing new_df) ∧
    (∀ r ∈ new_df, r ∈ merge_with_existing_analysis existing new_df) ∧
    (∀ r ∈ existing, r.datetime ∉ new_df.map Row.datetime →
      r ∈ merge_with_existing_analysis existing new_df) := by
  have hperm : (merge_with_existing_analysis existing new_df).Perm
      (existing.filter (fun r => !((new_df.map Row.datetime).contains r.datetime)) ++ new_df) :=
    sortLe_perm _ _
  refine ⟨hperm, ?_, ?_, ?_⟩
  · intro r hr hdt hrn hmem
    rcases List.mem_append.mp (hperm.mem_iff.mp hmem) with h | h
    · have hpr := (List.mem_filter.mp h).2
      simp [hdt] at hpr
    · exact hrn h
  · intro r hr
    exact hperm.mem_iff.mpr (List.mem_append.mpr (Or.inr hr))
  · intro r hr hdt
    refine hperm.mem_iff.mpr (List.mem_append.mpr (Or.inl (List.mem_filter.mpr ⟨hr, ?_⟩)))
    simp [hdt]

/-- Witness for C2: entity `b`'s historical row at the overlapping hour 0 is
removed although the batch only carries entity `a` there; the batch row and
the historical row at the non-overlapping hour 3600 survive. -/
theorem C2_witness :
    ((⟨0, "b", "bn", 1, 1, "exact", "Home Assistant"⟩ : Row) ∉
      merge_with_existing_analysis
        [⟨0, "b", "bn", 1, 1, "exact", "Home Assistant"⟩,
         ⟨3600, "c", "cn", 1, 1, "exact", "Emporia"⟩]
        [⟨0, "a", "an", 2, 2, "exact", "Emporia"⟩]) ∧
    ((⟨0, "a", "an", 2, 2, "exact", "Emporia"⟩ : Row) ∈
      merge_with_existing_analysis
        [⟨0, "b", "bn", 1, 1, "exact", "Home Assistant"⟩,
         ⟨3600, "c", "cn", 1, 1, "exact", "Emporia"⟩]
        [⟨0, "a", "an", 2, 2, "exact", "Emporia"⟩]) ∧
    ((⟨3600, "c", "cn", 1, 1, "exact", "Emporia"⟩ : Row) ∈
      merge_with_existing_analysis
        [⟨0, "b", "bn", 1, 1, "exact", "Home Assistant"⟩,
         ⟨3600, "c", "cn", 1, 1, "exact", "Emporia"⟩]
        [⟨0, "a", "an", 2, 2, "exact", "Emporia"⟩]) :=
  ⟨(C2_merge_replacement _ _).2.1 _ (by decide) (by decide) (by decide),
   (C2_merge_replacement _ _).2.2.1 _ (by decide),
   (C2_merge_replacement _ _).2.2.2 _ (by decide) (by decide)⟩

/-! ## Claim C5: upstream double-count removal -/

theorem adjustFirst_of_find?_none {p : Row → Bool} {f : Row → Row} :
    ∀ l : List Row, l.find? p = none → adjustFirst p f l = l := by
  intro l hl
  induction l with
  | nil => rfl
  | cons r rs ih =>
    rw [List.find?_cons] at hl
    unfold adjustFirst
    rcases hpr : p r with _ | _
    · rw [hpr] at hl
      simp only [hpr, Bool.false_eq_true, if_false]
      rw [ih hl]
    · rw [hpr] at hl
      simp at hl

theorem adjustFirst_of_find?_some {p : Row → Bool} {f : Row → Row} :
    ∀ (l : List Row) (u : Row), l.find? p = some u →
      ∃ l1 l2, l = l1 ++ u :: l2 ∧ (∀ x ∈ l1, p x = false) ∧
        adjustFirst p f l = l1 ++ f u :: l2 := by
  intro l
  induction l with
  | nil => intro u hu; simp at hu
  | cons r rs ih =>
    intro u hu
    rw [List.find?_cons] at hu
    rcases hpr : p r with _ | _
    · rw [hpr] at hu
      rcases ih u hu with ⟨l1, l2, hl, hfalse, hadj⟩
      refine ⟨r :: l1, l2, by rw [hl]; rfl, ?_, ?_⟩
      · intro x hx
        rcases List.mem_cons.mp hx with rfl | hx'
        · exact hpr
        · exact hfalse x hx'
      · unfold adjustFirst
        simp only [hpr, Bool.false_eq_true, if_false]
        rw [hadj]
        rfl
    · rw [hpr] at hu
      simp only [Option.some.injEq] at hu
      subst hu
      refine ⟨[], rs, rfl, by simp, ?_⟩
      unfold adjustFirst
      simp [hpr]

theorem upstreamPred_datetime {ts : ℤ} {up : String} {r : Row}
    (h : upstreamPred ts up r = true) : r.datetime = ts := by
  unfold upstreamPred at h
  simp only [Bool.and_eq_true, beq_iff_eq] at h
  exact h.1.1

theorem adjustRow_datetime (q : ℚ) (r : Row) : (adjustRow q r).datetime = r.datetime := rfl

theorem adjustFirst_filter_ne (p : Row → Bool) (f : Row → Row) (ts ts' : ℤ)
    (hp : ∀ r, p r = true → r.datetime = ts)
    (hf : ∀ r, (f r).datetime = r.datetime) (hne : ts' ≠ ts) :
    ∀ l : List Row, (adjustFirst p f l).filter (fun r => r.datetime == ts') =
      l.filter (fun r => r.datetime == ts') := by
  intro l
  induction l with
  | nil => rfl
  | cons r rs ih =>
    unfold adjustFirst
    rcases hpr : p r with _ | _
    · simp only [Bool.false_eq_true, if_false, List.filter_cons]
      split <;> simp [ih]
    · simp only [if_true, List.filter_cons]
      have hdt : r.datetime = ts := hp r hpr
      have h1 : ((f r).datetime == ts') = false := by
        rw [hf r, hdt]
        exact beq_eq_false_iff_ne.mpr (fun h => hne h.symm)
      have h2 : (r.datetime == ts') = false := by
        rw [hdt]
        exact beq_eq_false_iff_ne.mpr (fun h => hne h.symm)
      simp [h1, h2]

theorem adjustFirst_nil (p : Row → Bool) (f : Row → Row) : adjustFirst p f [] = [] := rfl

theorem adjustFirst_cons (p : Row → Bool) (f : Row → Row) (r : Row) (rs : List Row) :
    adjustFirst p f (r :: rs) =
      if p r then f r :: rs else r :: adjustFirst p f rs := rfl

theorem adjustFirst_filter_own (p : Row → Bool) (f : Row → Row) (ts : ℤ)
    (hp : ∀ r, p r = true → r.datetime = ts)
    (hf : ∀ r, (f r).datetime = r.datetime) :
    ∀ l : List Row, (adjustFirst p f l).filter (fun r => r.datetime == ts) =
      adjustFirst p f (l.filter (fun r => r.datetime == ts)) := by
  intro l
  induction l with
  | nil => rfl
  | cons r rs ih =>
    rw [adjustFirst_cons, List.filter_cons]
    rcases hpr : p r with _ | _
    · simp only [Bool.false_eq_true, if_false, List.filter_cons]
      rcases hdt : (r.datetime == ts) with _ | _
      · simp only [Bool.false_eq_true, if_false]
        exact ih
      · simp only [if_true]
        rw [adjustFirst_cons]
        simp only [hpr, Bool.false_eq_true, if_false]
        rw [ih]
    · have hdt : (r.datetime == ts) = true := beq_iff_eq.mpr (hp r hpr)
      have hfdt : ((f r).datetime == ts) = true := by
        rw [hf r]; exact hdt
      simp only [if_true, List.filter_cons, hfdt, hdt, if_true]
      rw [adjustFirst_cons]
      simp [hpr]

theorem adjustStep_filter_ne (ts ts' : ℤ) (hne : ts' ≠ ts)
    (hd acc : List Row) (m : Mapping) :
    (adjustStep ts hd acc m).filter (fun r => r.datetime == ts') =
      acc.filter (fun r => r.datetime == ts') := by
  unfold adjustStep
  split
  · rcases hfind : hd.find? (haDevicePred m.entity_id) with _ | ha
    · rfl
    · exact adjustFirst_filter_ne (upstreamPred ts m.upstream_sensor)
        (adjustRow ha.hourly_consumption) ts ts'
        (fun r h => upstreamPred_datetime h) (fun r => adjustRow_datetime _ r) hne acc
  · rfl

theorem adjustStep_filter_own (ts : ℤ) (acc : List Row) (m : Mapping) :
    (adjustStep ts (acc.filter (fun r => r.datetime == ts)) acc m).filter
        (fun r => r.datetime == ts) =
      adjustStep ts (acc.filter (fun r => r.datetime == ts))
        (acc.filter (fun r => r.datetime == ts)) m := by
  unfold adjustStep
  split
  · rcases hfind : (acc.filter (fun r => r.datetime == ts)).find?
        (haDevicePred m.entity_id) with _ | ha <;> rw [hfind]
    exact adjustFirst_filter_own (upstreamPred ts m.upstream_sensor)
      (adjustRow ha.hourly_consumption) ts
      (fun r h => upstreamPred_datetime h) (fun r => adjustRow_datetime _ r) acc
  · rfl

theorem foldl_adjustCycle_filter_notmem (m : Mapping) (tss : List ℤ)
    (acc : List Row) (ts : ℤ) (h : ts ∉ tss) :
    (tss.foldl (adjustCycleStep m) acc).filter (fun r => r.datetime == ts) =
      acc.filter (fun r => r.datetime == ts) := by
  induction tss generalizing acc with
  | nil => rfl
  | cons t l ih =>
    have hne : ts ≠ t := fun he => h (he ▸ List.mem_cons_self t l)
    have hnl : ts ∉ l := fun hm => h (List.mem_cons_of_mem t hm)
    rw [List.foldl_cons, ih (adjustCycleStep m acc t) hnl]
    exact adjustStep_filter_ne t ts hne _ acc m

theorem foldl_adjustCycle_filter_mem (m : Mapping) (tss : List ℤ)
    (hnd : tss.Nodup) (acc : List Row) (ts : ℤ) (h : ts ∈ tss) :
    (tss.foldl (adjustCycleStep m) acc).filter (fun r => r.datetime == ts) =
      adjustStep ts (acc.filter (fun r => r.datetime == ts))
        (acc.filter (fun r => r.datetime == ts)) m := by
  induction tss generalizing acc with
  | nil => simp at h
  | cons t l ih =>
    rcases List.nodup_cons.mp hnd with ⟨htl, hl⟩
    rw [List.foldl_cons]
    rcases List.mem_cons.mp h with rfl | hmem
    · rw [foldl_adjustCycle_filter_notmem m l _ ts htl]
      exact adjustStep_filter_own ts acc m
    · have hne : ts ≠ t := fun he => htl (he ▸ hmem)
      rw [ih hl (adjustCycleStep m acc t) hmem]
      have hfe : (adjustCycleStep m acc t).filter (fun r => r.datetime == ts) =
          acc.filter (fun r => r.datetime == ts) :=
        adjustStep_filter_ne t ts hne (acc.filter (fun r => r.datetime == t)) acc m
      rw [hfe]

/-- Claim C5 (amended): with a configured upstream mapping `e ↦ up`, for every
hour `ts` of the combined table: when the downstream HA row for `e` is present
at `ts` (the first row matched by `haDevicePred`), the hour's rows are
transformed by replacing the first upstream Emporia row matched by display
name `up` — subtracting the downstream row's HOURLY consumption from both the
upstream row's hourly consumption and its cumulative consumption, and tagging
its data method `_adjusted` — while every other row of the hour, in particular
the downstream row itself, is unchanged; when the downstream row is absent the
hour is untouched, and when no upstream row matches, `adjustFirst` leaves the
hour unchanged. -/
theorem C5_upstream_adjustment (e nm up : String) (rows : List Row) (ts : ℤ)
    (hup : hasUpstream ⟨e, nm, up⟩ = true) :
    ((rows.filter (fun r => r.datetime == ts)).find? (haDevicePred e) = none →
      (apply_upstream_device_adjustments [⟨e, nm, up⟩] rows).filter
          (fun r => r.datetime == ts) =
        rows.filter (fun r => r.datetime == ts)) ∧
    (∀ haRow, (rows.filter (fun r => r.datetime == ts)).find? (haDevicePred e) = some haRow →
      (apply_upstream_device_adjustments [⟨e, nm, up⟩] rows).filter
          (fun r => r.datetime == ts) =
        adjustFirst (upstreamPred ts up) (adjustRow haRow.hourly_consumption)
          (rows.filter (fun r => r.datetime == ts))) ∧
    (∀ (p : Row → Bool) (f : Row → Row) (l : List Row), l.find? p = none →
      adjustFirst p f l = l) ∧
    (∀ (p : Row → Bool) (f : Row → Row) (l : List Row) (u : Row), l.find? p = some u →
      ∃ l1 l2, l = l1 ++ u :: l2 ∧ (∀ x ∈ l1, p x = false) ∧
        adjustFirst p f l = l1 ++ f u :: l2) ∧
    (∀ (q : ℚ) (r : Row), adjustRow q r =
      ⟨r.datetime, r.entity_id, r.sensor_name, r.cumulative_consumption - q,
       r.hourly_consumption - q, r.data_method ++ "_adjusted", r.data_source⟩) := by
  have happ : apply_upstream_device_adjustments [⟨e, nm, up⟩] rows =
      (sortedUniqueDatetimes rows).foldl (adjustCycleStep ⟨e, nm, up⟩) rows := rfl
  have hnd : (sortedUniqueDatetimes rows).Nodup :=
    sortLe_nodup intLe _ (List.nodup_dedup _)
  have hmemiff : ∀ t : ℤ, t ∈ sortedUniqueDatetimes rows ↔ t ∈ rows.map Row.datetime := by
    intro t
    unfold sortedUniqueDatetimes
    rw [mem_sortLe, List.mem_dedup]
  refine ⟨?_, ?_, fun p f l h => adjustFirst_of_find?_none l h,
    fun p f l u h => adjustFirst_of_find?_some l u h, fun q r => rfl⟩
  · intro hnone
    by_cases hts : ts ∈ sortedUniqueDatetimes rows
    · rw [happ, foldl_adjustCycle_filter_mem _ _ hnd rows ts hts]
      unfold adjustStep
      rw [if_pos hup, hnone]
    · rw [happ, foldl_adjustCycle_filter_notmem _ _ rows ts hts]
  · intro haRow hsome
    have hts : ts ∈ sortedUniqueDatetimes rows := by
      rw [hmemiff]
      have hmem := List.mem_of_find?_eq_some hsome
      rcases List.mem_filter.mp hmem with ⟨hmem', hdt⟩
      exact List.mem_map.mpr ⟨haRow, hmem', beq_iff_eq.mp hdt⟩
    rw [happ, foldl_adjustCycle_filter_mem _ _ hnd rows ts hts]
    unfold adjustStep
    rw [if_pos hup, hsome]

/-- Claim C5 counterexample: with a downstream HA row of cumulative 100 and
hourly 1.2, and an upstream Emporia row of cumulative 50 and hourly 5.0, the
reconciled upstream row has hourly 3.8 (5.0 − 1.2) as the claim describes,
but its cumulative consumption is 48.8 = 50 − 1.2 (the downstream HOURLY is
subtracted), not 50 − 100 = −50 as subtracting the downstream row's
cumulative_consumption — which the claim, read field-wise, prescribes —
would give. -/
theorem C5_counterexample :
    ((apply_upstream_device_adjustments [⟨"sensor.d", "d", "up"⟩]
        [⟨0, "sensor.d", "d", 100, 6/5, "exact", "Home Assistant"⟩,
         ⟨0, "sensor.up", "up", 50, 5, "emporia_direct", "Emporia"⟩]).map
        (fun r => (r.hourly_consumption, r.cumulative_consumption, r.data_method)))
      = [(6/5, 100, "exact"), (19/5, 244/5, "emporia_direct_adjusted")] ∧
    (244 : ℚ)/5 ≠ 50 - 100 := by
  with_unfolding_all decide

/-- Witness for the amended C5 at a concrete hour: downstream row present, so
the hour's rows become `adjustFirst` of the upstream predicate. -/
theorem C5_witness :
    (apply_upstream_device_adjustments [⟨"sensor.d", "d", "up"⟩]
        [⟨0, "sensor.d", "d", 100, 1, "exact", "Home Assistant"⟩,
         ⟨0, "sensor.up", "up", 50, 5, "emporia_direct", "Emporia"⟩]).filter
        (fun r => r.datetime == 0) =
      adjustFirst (upstreamPred 0 "up")
        (adjustRow (⟨0, "sensor.d", "d", 100, 1, "exact", "Home Assistant"⟩ : Row).hourly_consumption)
        (([⟨0, "sensor.d", "d", 100, 1, "exact", "Home Assistant"⟩,
           ⟨0, "sensor.up", "up", 50, 5, "emporia_direct", "Emporia"⟩] : List Row).filter
          (fun r => r.datetime == 0)) :=
  (C5_upstream_adjustment "sensor.d" "d" "up"
      [⟨0, "sensor.d", "d", 100, 1, "exact", "Home Assistant"⟩,
       ⟨0, "sensor.up", "up", 50, 5, "emporia_direct", "Emporia"⟩] 0
      (by with_unfolding_all decide)).2.1
    ⟨0, "sensor.d", "d", 100, 1, "exact", "Home Assistant"⟩ (by decide)

/-! ## Claim C3: the aggregate identity of the derived rows -/

theorem sumHourly_nil : sumHourly [] = 0 := rfl

theorem sumHourly_cons (r : Row) (l : List Row) :
    sumHourly (r :: l) = r.hourly_consumption + sumHourly l := by
  unfold sumHourly
  simp

theorem sumHourly_filter_or (p q : Row → Bool)
    (hpq : ∀ r, ¬(p r = true ∧ q r = true)) :
    ∀ l : List Row,
      sumHourly (l.filter p) + sumHourly (l.filter q) =
        sumHourly (l.filter (fun r => p r || q r)) := by
  intro l
  induction l with
  | nil => simp [sumHourly]
  | cons r rs ih =>
    rcases hp : p r with _ | _ <;> rcases hq : q r with _ | _
    · simp only [List.filter_cons, hp, hq, Bool.false_eq_true, if_false, Bool.false_or]
      exact ih
    · simp only [List.filter_cons, hp, hq, Bool.false_eq_true, if_false, Bool.false_or, if_true,
        sumHourly_cons]
      rw [← ih]
      ring
    · simp only [List.filter_cons, hp, hq, Bool.false_eq_true, if_false, Bool.true_or, if_true,
        sumHourly_cons]
      rw [← ih]
      ring
    · exact absurd ⟨hp, hq⟩ (hpq r)

theorem filter_map_arow (peak : ℤ → Bool) (q : Row → Bool) (l : List Row) :
    ((l.map (fun r => (⟨r, rowTypeOf r.sensor_name, peak r.datetime⟩ : ARow))).filter
        (fun ar => q ar.row)) =
      (l.filter q).map (fun r => (⟨r, rowTypeOf r.sensor_name, peak r.datetime⟩ : ARow)) := by
  induction l with
  | nil => rfl
  | cons r rs ih =>
    simp only [List.map_cons, List.filter_cons]
    rcases hq : q r with _ | _ <;> simp [hq, ih]

theorem filter_analysisRowsAt (f : List Row) (t ts : ℤ) :
    (analysisRowsAt f t).filter (fun r => r.datetime == ts && r.data_source == "Analysis") =
      if t = ts then analysisRowsAt f ts else [] := by
  by_cases h : t = ts
  · subst h
    simp [analysisRowsAt, List.filter_cons]
  · have hb : (t == ts) = false := beq_eq_false_iff_ne.mpr h
    rw [if_neg h]
    simp [analysisRowsAt, List.filter_cons, hb]

theorem filter_analysisRows_notmem (f : List Row) (ts : ℤ) :
    ∀ tss : List ℤ, ts ∉ tss →
      (analysisRows f tss).filter (fun r => r.datetime == ts && r.data_source == "Analysis") = [] := by
  intro tss
  induction tss with
  | nil => intro _; rfl
  | cons t l ih =>
    intro h
    have hne : t ≠ ts := fun he => h (he ▸ List.mem_cons_self t l)
    unfold analysisRows
    rw [List.filter_append, filter_analysisRowsAt, if_neg hne,
      ih (fun hm => h (List.mem_cons_of_mem t hm))]
    rfl

theorem filter_analysisRows_mem (f : List Row) (ts : ℤ) :
    ∀ tss : List ℤ, tss.Nodup → ts ∈ tss →
      (analysisRows f tss).filter (fun r => r.datetime == ts && r.data_source == "Analysis") =
        analysisRowsAt f ts := by
  intro tss
  induction tss with
  | nil => intro _ h; simp at h
  | cons t l ih =>
    intro hnd h
    rcases List.nodup_cons.mp hnd with ⟨htl, hl⟩
    unfold analysisRows
    rw [List.filter_append, filter_analysisRowsAt]
    rcases List.mem_cons.mp h with rfl | hmem
    · rw [if_pos rfl, filter_analysisRows_notmem f ts l htl, List.append_nil]
    · have hne : t ≠ ts := fun he => htl (he ▸ hmem)
      rw [if_neg hne, ih hl hmem]
      rfl

/-- Claim C3: for every distinct hour of the reconciled (filtered) table, the
pipeline appends exactly three derived analysis rows — `total_consumption`,
`total_individual_sensors` and `untracked`, in that order — where
`total_consumption` is the sum of `hourly_consumption` over the hour's rows
named `main_panel` or `solar`, `total_individual_sensors` is the sum over all
the hour's other rows, and `untracked` is exactly their difference
`total_consumption − total_individual_sensors` (by construction, also when it
is negative). -/
theorem C3_aggregate_identity (peak : ℤ → Bool) (combined : List Row) (ts : ℤ)
    (hsrc : ∀ r ∈ combined, r.data_source ≠ "Analysis")
    (hts : ts ∈ (combined.filter
      (fun r => !(excluded_entities.contains r.entity_id))).map Row.datetime) :
    ((add_consumption_analysis peak combined).filter
        (fun ar => ar.row.datetime == ts && ar.row.data_source == "Analysis")).map
        (fun ar => (ar.row.sensor_name, ar.row.hourly_consumption)) =
      [("total_consumption",
        sumHourly (((combined.filter (fun r => !(excluded_entities.contains r.entity_id))).filter
          (fun r => r.datetime == ts)).filter
            (fun r => r.sensor_name == "main_panel" || r.sensor_name == "solar"))),
       ("total_individual_sensors",
        sumHourly (((combined.filter (fun r => !(excluded_entities.contains r.entity_id))).filter
          (fun r => r.datetime == ts)).filter
            (fun r => !(r.sensor_name == "main_panel" || r.sensor_name == "solar")))),
       ("untracked",
        sumHourly (((combined.filter (fun r => !(excluded_entities.contains r.entity_id))).filter
          (fun r => r.datetime == ts)).filter
            (fun r => r.sensor_name == "main_panel" || r.sensor_name == "solar")) -
        sumHourly (((combined.filter (fun r => !(excluded_entities.contains r.entity_id))).filter
          (fun r => r.datetime == ts)).filter
            (fun r => !(r.sensor_name == "main_panel" || r.sensor_name == "solar"))))] := by
  simp only [add_consumption_analysis]
  rw [filter_map_arow peak (fun r => r.datetime == ts && r.data_source == "Analysis"),
    List.filter_append]
  have hfilnil : ((combined.filter (fun r => !(excluded_entities.contains r.entity_id))).filter
      (fun r => r.datetime == ts && r.data_source == "Analysis")) = [] := by
    rw [List.filter_eq_nil_iff]
    intro r hr hq
    simp only [Bool.and_eq_true] at hq
    exact hsrc r (List.mem_filter.mp hr).1 (beq_iff_eq.mp hq.2)
  rw [hfilnil]
  have hnd : (sortLe intLe ((combined.filter
      (fun r => !(excluded_entities.contains r.entity_id))).map Row.datetime).dedup).Nodup :=
    sortLe_nodup intLe _ (List.nodup_dedup _)
  have hmem : ts ∈ sortLe intLe ((combined.filter
      (fun r => !(excluded_entities.contains r.entity_id))).map Row.datetime).dedup := by
    rw [mem_sortLe, List.mem_dedup]
    exact hts
  rw [filter_analysisRows_mem _ ts _ hnd hmem, List.nil_append]
  have hsum := sumHourly_filter_or (fun r => r.sensor_name == "main_panel")
    (fun r => r.sensor_name == "solar")
    (fun r h => by
      have h1 := beq_iff_eq.mp h.1
      have h2 := beq_iff_eq.mp h.2
      exact absurd (h1 ▸ h2) (by decide))
    ((combined.filter (fun r => !(excluded_entities.contains r.entity_id))).filter
      (fun r => r.datetime == ts))
  unfold analysisRowsAt
  simp only [List.map_cons, List.map_nil]
  rw [← hsum]

/-- Witness for C3 at a single-hour table with `main_panel = 5`, `solar = 2`
and one individual sensor of 3 (so `untracked = 7 − 3 = 4`). -/
theorem C3_witness :
    ((add_consumption_analysis (fun _ => false)
        [⟨0, "sensor.mp", "main_panel", 5, 5, "emporia_direct", "Emporia"⟩,
         ⟨0, "sensor.so", "solar", 2, 2, "emporia_direct", "Emporia"⟩,
         ⟨0, "sensor.dr", "dryer", 3, 3, "emporia_direct", "Emporia"⟩]).filter
        (fun ar => ar.row.datetime == 0 && ar.row.data_source == "Analysis")).map
        (fun ar => (ar.row.sensor_name, ar.row.hourly_consumption)) =
      [("total_consumption",
        sumHourly ((([⟨0, "sensor.mp", "main_panel", 5, 5, "emporia_direct", "Emporia"⟩,
          ⟨0, "sensor.so", "solar", 2, 2, "emporia_direct", "Emporia"⟩,
          ⟨0, "sensor.dr", "dryer", 3, 3, "emporia_direct", "Emporia"⟩] : List Row).filter
            (fun r => !(excluded_entities.contains r.entity_id))).filter
          (fun r => r.datetime == 0) |>.filter
            (fun r => r.sensor_name == "main_panel" || r.sensor_name == "solar"))),
       ("total_individual_sensors",
        sumHourly ((([⟨0, "sensor.mp", "main_panel", 5, 5, "emporia_direct", "Emporia"⟩,
          ⟨0, "sensor.so", "solar", 2, 2, "emporia_direct", "Emporia"⟩,
          ⟨0, "sensor.dr", "dryer", 3, 3, "emporia_direct", "Emporia"⟩] : List Row).filter
            (fun r => !(excluded_entities.contains r.entity_id))).filter
          (fun r => r.datetime == 0) |>.filter
            (fun r => !(r.sensor_name == "main_panel" || r.sensor_name == "solar")))),
       ("untracked",
        sumHourly ((([⟨0, "sensor.mp", "main_panel", 5, 5, "emporia_direct", "Emporia"⟩,
          ⟨0, "sensor.so", "solar", 2, 2, "emporia_direct", "Emporia"⟩,
          ⟨0, "sensor.dr", "dryer", 3, 3, "emporia_direct", "Emporia"⟩] : List Row).filter
            (fun r => !(excluded_entities.contains r.entity_id))).filter
          (fun r => r.datetime == 0) |>.filter
            (fun r => r.sensor_name == "main_panel" || r.sensor_name == "solar")) -
        sumHourly ((([⟨0, "sensor.mp", "main_panel", 5, 5, "emporia_direct", "Emporia"⟩,
          ⟨0, "sensor.so", "solar", 2, 2, "emporia_direct", "Emporia"⟩,
          ⟨0, "sensor.dr", "dryer", 3, 3, "emporia_direct", "Emporia"⟩] : List Row).filter
            (fun r => !(excluded_entities.contains r.entity_id))).filter
          (fun r => r.datetime == 0) |>.filter
            (fun r => !(r.sensor_name == "main_panel" || r.sensor_name == "solar"))))] :=
  C3_aggregate_identity (fun _ => false)
    [⟨0, "sensor.mp", "main_panel", 5, 5, "emporia_direct", "Emporia"⟩,
     ⟨0, "sensor.so", "solar", 2, 2, "emporia_direct", "Emporia"⟩,
     ⟨0, "sensor.dr", "dryer", 3, 3, "emporia_direct", "Emporia"⟩] 0
    (by decide) (by decide)

/-! ## Claim C7: peak-hour classification -/

/-- Claim C7: `is_peak_hour` is true iff the local hour of day is within
`[7, 20]` inclusive, the local date is a weekday (Monday=0 … Friday=4), and
the date is not a recognized national holiday — the holiday exclusion applies
only when holiday data is available, so an unavailable holidays library
degrades the classification to weekday-only without failing.  Every row of the
analyzed table (derived rows included) receives `peak_hours` as the
classification of its own datetime.  Concretely (2025-10-20 being a Monday
that is not a US holiday): 2025-10-20 09:00 is peak, 2025-10-18 09:00 (a
Saturday) is not, and 2025-10-20 21:00 is not. -/
theorem C7_peak_classification (holidays_available : Bool) (is_us_holiday : ℤ → Bool)
    (hOct20 : (holidays_available && is_us_holiday (daysFromCivil 2025 10 20)) = false) :
    (∀ t : ℤ, is_peak_hour holidays_available is_us_holiday t = true ↔
      (7 ≤ hourOf t ∧ hourOf t ≤ 20 ∧ weekdayOf t ≤ 4 ∧
        ¬(holidays_available = true ∧ is_us_holiday (dayOf t) = true))) ∧
    (∀ (combined : List Row) (ar : ARow),
      ar ∈ add_consumption_analysis (is_peak_hour holidays_available is_us_holiday) combined →
      ar.peak_hours = is_peak_hour holidays_available is_us_holiday ar.row.datetime) ∧
    is_peak_hour holidays_available is_us_holiday (localTime 2025 10 20 9) = true ∧
    is_peak_hour holidays_available is_us_holiday (localTime 2025 10 18 9) = false ∧
    is_peak_hour holidays_available is_us_holiday (localTime 2025 10 20 21) = false := by
  have hday20 : dayOf (localTime 2025 10 20 9) = daysFromCivil 2025 10 20 := by decide
  have hday21 : dayOf (localTime 2025 10 20 21) = daysFromCivil 2025 10 20 := by decide
  refine ⟨?_, ?_, ?_, ?_, ?_⟩
  · intro t
    unfold is_peak_hour
    split_ifs with h1 h2
    · simp only [Bool.false_eq_true, false_iff]
      rintro ⟨-, -, hw, -⟩
      omega
    · simp only [Bool.false_eq_true, false_iff]
      rintro ⟨-, -, -, hh⟩
      simp only [Bool.and_eq_true] at h2
      exact hh h2
    · rw [decide_eq_true_iff]
      constructor
      · rintro ⟨ha, hb⟩
        refine ⟨ha, hb, by omega, ?_⟩
        rintro ⟨hav, hh⟩
        exact h2 (by rw [hav, hh]; rfl)
      · rintro ⟨ha, hb, -, -⟩
        exact ⟨ha, hb⟩
  · intro combined ar har
    simp only [add_consumption_analysis] at har
    rcases List.mem_map.mp har with ⟨r, -, rfl⟩
    rfl
  · unfold is_peak_hour
    rw [if_neg (by decide : ¬weekdayOf (localTime 2025 10 20 9) ≥ 5)]
    rw [hday20, hOct20]
    simp only [Bool.false_eq_true, if_false]
    decide
  · unfold is_peak_hour
    rw [if_pos (by decide : weekdayOf (localTime 2025 10 18 9) ≥ 5)]
  · unfold is_peak_hour
    rw [if_neg (by decide : ¬weekdayOf (localTime 2025 10 20 21) ≥ 5)]
    rw [hday21, hOct20]
    simp only [Bool.false_eq_true, if_false]
    decide

/-- Witness for C7 with the holidays library available and no recognized
holiday on the relevant dates. -/
theorem C7_witness :
    is_peak_hour true (fun _ => false) (localTime 2025 10 20 9) = true ∧
    is_peak_hour true (fun _ => false) (localTime 2025 10 18 9) = false ∧
    is_peak_hour true (fun _ => false) (localTime 2025 10 20 21) = false := by
  have h := C7_peak_classification true (fun _ => false) (by decide)
  exact ⟨h.2.2.1, h.2.2.2.1, h.2.2.2.2⟩

end HAEnergy
